import Mathlib

/-!
# Verification of the bi-order-book market-data streaming engine

Shallow embedding, in Lean 4, of the core of the repository
(`src/server/app/engine.py`, `src/server/app/websocket.py`,
`src/server/app/connection.py`) together with proofs settling the frozen
claims about it.

Modelling conventions:
* Python `Decimal` prices and quantities become `ℚ` (exact arithmetic with
  decidable equality and order; the engine only compares, tests equality with
  zero, and stores these values, all of which `ℚ` models exactly).
* `sortedcontainers.SortedDict` becomes an association list whose keys are
  kept strictly ascending; `SortedDict` iteration order and key uniqueness
  are captured by the `Chain'` invariant proved below.
* Python `int` sequence ids become `Nat` (Python ints are unbounded).
* Asynchronous generators become pure functions from the list of inbound
  events to the list of emitted values plus a terminal outcome.
* `str(quantity)` formatting in `top_bids` / `top_asks` is dropped: the
  views are modelled as returning the quantities themselves.
-/

/-! ## Order book (`engine.py`, class `OrderBook`) -/

/-- Model of `Offer` from `engine.py`: a (price, quantity) pair, both exact decimals. -/
structure Offer where
  price : ℚ
  quantity : ℚ
  deriving DecidableEq, Repr

/-- One side of the book: a `SortedDict[Decimal, Decimal]` modelled as an
association list with strictly ascending keys. -/
abbrev Side := List (ℚ × ℚ)

/-- Key/value insertion-or-replacement into the sorted association list,
modelling `offers_dict[update.price] = update.quantity` on a `SortedDict`. -/
def upsert : Side → ℚ → ℚ → Side
  | [], p, q => [(p, q)]
  | (p₁, q₁) :: rest, p, q =>
    if p < p₁ then (p, q) :: (p₁, q₁) :: rest
    else if p = p₁ then (p, q) :: rest
    else (p₁, q₁) :: upsert rest p q

/-- Key removal, modelling `del offers_dict[update.price]` with the
`KeyError` swallowed (`engine.py` lines 75-78): removing an absent key is a
no-op. -/
def eraseKey : Side → ℚ → Side
  | [], _ => []
  | (p₁, q₁) :: rest, p => if p = p₁ then rest else (p₁, q₁) :: eraseKey rest p

/-- Dictionary lookup (`offers_dict.get`), for specification purposes. -/
def lookupSide : Side → ℚ → Option ℚ
  | [], _ => none
  | (p₁, q₁) :: rest, p => if p = p₁ then some q₁ else lookupSide rest p

/-- One step of the loop body of `OrderBook._update_offers`: quantity 0
removes the price key, anything else upserts. -/
def applyOffer (d : Side) (u : Offer) : Side :=
  if u.quantity = 0 then eraseKey d u.price else upsert d u.price u.quantity

/-- Model of `OrderBook._update_offers`: fold the loop body over the update list. -/
def update_offers (d : Side) (updates : List Offer) : Side :=
  updates.foldl applyOffer d

/-- Model of `OrderBook`: bids and asks, each a price-ascending sorted mapping. -/
structure OrderBook where
  bids : Side
  asks : Side
  deriving DecidableEq, Repr

/-- Model of `OrderBook.__init__`: both sides empty. -/
def OrderBook.empty : OrderBook := ⟨[], []⟩

/-- Model of `OrderBook.update`: apply the bid updates to the bid side and the ask
updates to the ask side. -/
def OrderBook.update (b : OrderBook) (bids asks : List Offer) : OrderBook :=
  { bids := update_offers b.bids bids, asks := update_offers b.asks asks }

/-- Model of `OrderBook.top_bids`, i.e. `self._bids.values()[-1:-21:-1]` — the quantities at
the 20 highest prices, best (highest) price first. On an ascending-key
mapping the Python slice `[-1:-21:-1]` is: reverse the values, take 20. -/
def OrderBook.top_bids (b : OrderBook) : List ℚ :=
  ((b.bids.map Prod.snd).reverse).take 20

/-- Model of `OrderBook.top_asks`, i.e. `self._asks.values()[:20]` — the quantities at the
20 lowest prices, best (lowest) price first. -/
def OrderBook.top_asks (b : OrderBook) : List ℚ :=
  (b.asks.map Prod.snd).take 20

/-- A whole history of `OrderBook.update` calls applied in order. -/
def OrderBook.applyAll (b : OrderBook) (upds : List (List Offer × List Offer)) : OrderBook :=
  upds.foldl (fun b u => b.update u.1 u.2) b

/-- All bid offers of a history of `OrderBook.update` calls, in order. -/
def flatBids (upds : List (List Offer × List Offer)) : List Offer :=
  (upds.map Prod.fst).flatten

/-- All ask offers of a history of `OrderBook.update` calls, in order. -/
def flatAsks (upds : List (List Offer × List Offer)) : List Offer :=
  (upds.map Prod.snd).flatten

/-- The sortedness invariant of a `SortedDict` side: keys strictly
ascending (hence unique). -/
def SideSorted (d : Side) : Prop :=
  List.Chain' (fun x y : ℚ × ℚ => x.1 < y.1) d

/-- A book is well-formed when both sides are sorted; every state of the
Python `OrderBook` (two `SortedDict`s) satisfies this. -/
def OrderBook.WF (b : OrderBook) : Prop :=
  SideSorted b.bids ∧ SideSorted b.asks

instance : DecidablePred SideSorted := fun d =>
  inferInstanceAs (Decidable (List.Chain' _ d))

instance (b : OrderBook) : Decidable b.WF :=
  inferInstanceAs (Decidable (_ ∧ _))

/-- Net effect of one offer on one key's lookup. -/
def offerStep (p : ℚ) (o : Option ℚ) (u : Offer) : Option ℚ :=
  if u.price = p then (if u.quantity = 0 then none else some u.quantity) else o

/-- Net effect of a whole update list on one key's lookup. -/
def netQty (p : ℚ) (L : List Offer) (o : Option ℚ) : Option ℚ :=
  L.foldl (offerStep p) o

/-- "No zero-quantity entry" invariant of one side. -/
def NoZeroSide (d : Side) : Prop := ∀ x ∈ d, x.2 ≠ 0

/-! ## Snapshot + diff synchronization (`engine.py`, `process_order_book_updates`) -/

/-- Model of `DepthUpdateEvent` from `engine.py`: fields `U` (first update id), `u`
(last update id), `b` (bid diffs), `a` (ask diffs), all as parsed from the
wire; prices and quantities stay string-encoded at this stage. -/
structure DepthEvent where
  first_seq : Nat
  last_seq : Nat
  bid_diffs : List (String × String)
  ask_diffs : List (String × String)
  deriving DecidableEq, Repr

/-- The REST snapshot (`fetch_initial_order_book` response):
`{lastUpdateId, bids, asks}`. -/
structure Snapshot where
  lastUpdateId : Nat
  bids : List (String × String)
  asks : List (String × String)
  deriving DecidableEq, Repr

/-- The raw `event` payload stored in an `OrderBookUpdate`. -/
inductive RawEvent where
  | snapshot (s : Snapshot)
  | depth (e : DepthEvent)
  deriving DecidableEq, Repr

/-- Model of `OrderBookUpdate` from `engine.py`: string-encoded bid/ask levels plus
the raw event they came from. -/
structure OrderBookUpdate where
  bids : List (String × String)
  asks : List (String × String)
  event : RawEvent
  deriving DecidableEq, Repr

/-- The update built from a retained depth event (`engine.py` line 195). -/
def mkDepthUpdate (e : DepthEvent) : OrderBookUpdate :=
  ⟨e.bid_diffs, e.ask_diffs, RawEvent.depth e⟩

/-- The update built from the snapshot (`engine.py` line 170). -/
def mkSnapshotUpdate (s : Snapshot) : OrderBookUpdate :=
  ⟨s.bids, s.asks, RawEvent.snapshot s⟩

/-- Outcome of the loop body of `process_order_book_updates` on one event.
The two fault constructors mirror the two distinct `StreamIntegrityError`
raise sites (lines 185-188 and 190-193). -/
inductive StepResult where
  | discard
  | emit (upd : OrderBookUpdate) (newPrev : Nat)
  | gapFault (expected got : Nat)
  | anchorFault (firstId lastId u0 : Nat)
  deriving DecidableEq, Repr

/-- The loop body of `process_order_book_updates` (`engine.py` lines
175-196) on one incoming event, given `order_book_update_id` (the snapshot's
`lastUpdateId`, never reassigned) and `previous_last_update_id`. The code
initializes `previous_last_update_id` to the snapshot id (line 173), so the
`none` branch — the first-event anchoring check of lines 189-193 — is
unreachable in every actual run; it is embedded anyway, faithfully. -/
def processEvent (order_book_update_id : Nat) (previous_last_update_id : Option Nat)
    (e : DepthEvent) : StepResult :=
  if e.last_seq ≤ order_book_update_id then StepResult.discard
  else
    match previous_last_update_id with
    | some p =>
      if e.first_seq ≠ p + 1 then StepResult.gapFault (p + 1) e.first_seq
      else StepResult.emit (mkDepthUpdate e) e.last_seq
    | none =>
      if ¬(e.first_seq ≤ order_book_update_id + 1 ∧
          order_book_update_id + 1 ≤ e.last_seq) then
        StepResult.anchorFault e.first_seq e.last_seq order_book_update_id
      else StepResult.emit (mkDepthUpdate e) e.last_seq

/-- How a run of the event loop ends: all events consumed (with the final
`previous_last_update_id`), or a `StreamIntegrityError` raised. -/
inductive RunEnd where
  | ok (previous_last_update_id : Option Nat)
  | gapFault (expected got : Nat)
  | anchorFault (firstId lastId u0 : Nat)
  deriving DecidableEq, Repr

/-- The event loop of `process_order_book_updates` over a list of inbound
depth events: the updates yielded, and how the loop ended. A fault stops the
loop at once (the exception propagates), so nothing after it is emitted. -/
def runEvents (u0 : Nat) (prev : Option Nat) :
    List DepthEvent → List OrderBookUpdate × RunEnd
  | [] => ([], RunEnd.ok prev)
  | e :: es =>
    match processEvent u0 prev e with
    | StepResult.discard => runEvents u0 prev es
    | StepResult.emit upd newPrev =>
      ((runEvents u0 (some newPrev) es).1.cons upd, (runEvents u0 (some newPrev) es).2)
    | StepResult.gapFault a b => ([], RunEnd.gapFault a b)
    | StepResult.anchorFault a b c => ([], RunEnd.anchorFault a b c)

/-- One full attempt of `process_order_book_updates` (`engine.py` lines
158-196): yield the snapshot as the first update, set
`previous_last_update_id = order_book_update_id` (line 173), then run the
event loop. -/
def process_order_book_updates (snap : Snapshot) (events : List DepthEvent) :
    List OrderBookUpdate × RunEnd :=
  ((runEvents snap.lastUpdateId (some snap.lastUpdateId) events).1.cons
      (mkSnapshotUpdate snap),
    (runEvents snap.lastUpdateId (some snap.lastUpdateId) events).2)

/-! ## Connection handler (`engine.py`, `handle_websocket_connection`) -/

/-- The exception classes caught at `engine.py` line 209. -/
inductive FaultKind where
  | connectionClosed
  | socketError
  | timeout
  | streamIntegrity
  deriving DecidableEq, Repr

/-- What one synchronization attempt delivers to its consumer before it
terminates: the updates yielded by `process_order_book_updates`, then one of
the caught faults. -/
structure SyncAttempt where
  updates : List OrderBookUpdate
  fault : FaultKind
  deriving DecidableEq, Repr

/-- The caller-visible actions `handle_websocket_connection` can, in
principle, perform on the client connection. `backoffWait` and
`restartAttempt` are in the vocabulary so that their absence from every
produced trace is expressible. -/
inductive ClientAction where
  | sendText (bids asks : List (String × String))
  | close
  | backoffWait
  | restartAttempt
  deriving DecidableEq, Repr

/-- Model of `handle_websocket_connection` (`engine.py` lines 199-213) on one faulted
synchronization attempt: sends each yielded update as a text frame, catches
the fault (line 209), logs it, closes the websocket in the `finally` block,
and returns. The body has no loop around the attempt and no sleep, so the
action trace is finite and contains neither a backoff wait nor a restart. -/
def handle_websocket_connection (run : SyncAttempt) : List ClientAction :=
  (run.updates.map fun u => ClientAction.sendText u.bids u.asks) ++ [ClientAction.close]

/-! ## Inbound frame handling (`websocket.py` and `connection.py`,
`order_book_stream`) -/

/-- The character class kept by `re.sub(r'[^a-zA-Z0-9 -]', '', data)`. -/
def allowedChar (c : Char) : Bool :=
  ('a' ≤ c && c ≤ 'z') || ('A' ≤ c && c ≤ 'Z') || ('0' ≤ c && c ≤ '9') ||
    c = ' ' || c = '-'

/-- Sanitization `re.sub(r'[^a-zA-Z0-9 -]', '', data).upper()`: strip everything outside
the class, then upper-case. -/
def sanitizeSymbol (data : String) : String :=
  ⟨(data.data.filter allowedChar).map Char.toUpper⟩

/-- The actions one iteration of the client receive loop can take. -/
inductive HandlerAction where
  | sendJsonError (msg : String)
  | startSubscription (symbol : String)
  deriving DecidableEq, Repr

/-- One iteration of the receive loop of `order_book_stream` in
`websocket.py` — the handler actually wired to `/ws/{client_id}` in
`main.py`. Unsupported symbol: send `{'error': f'pair {data} not found!'}`
(lower-case `pair`, naming the unsanitized input) and loop; supported:
create the subscription task and install it with `set_task`. -/
def order_book_stream_ws (pairs : List String) (data : String) : List HandlerAction :=
  if sanitizeSymbol data ∈ pairs then
    [HandlerAction.startSubscription (sanitizeSymbol data)]
  else
    [HandlerAction.sendJsonError ("pair " ++ data ++ " not found!")]

/-- One iteration of the receive loop of the `order_book_stream` draft in
`connection.py`: same sanitization and lookup, error text capitalized
`Pair ... not found!` (line 35), `continue` without starting a task. -/
def order_book_stream_conn (pairs : List String) (data : String) : List HandlerAction :=
  if sanitizeSymbol data ∈ pairs then
    [HandlerAction.startSubscription (sanitizeSymbol data)]
  else
    [HandlerAction.sendJsonError ("Pair " ++ data ++ " not found!")]

/-! ## Session manager task replacement -/

/-- Modelled from the spec: the `ConnectionManager` class (the spec's
SessionManager) is imported by both handler drafts from `app.connection`,
but the module defining it is not among the source files — only its callers
are. Spec §4.3 defines `set_task(client_id, task)`: it "must first cancel
and await completion of any previously active task for that client before
installing the new one". Under that discipline, when a client switches from
symbol `a` to symbol `b`, the frames delivered to its connection are exactly
the frames the `a`-task delivered before its cancellation completed,
followed by the frames of the newly installed `b`-task; each frame is
tagged here with the symbol of the task that produced it. -/
def set_task_switch_trace (a b : String) (aFrames bFrames : List Nat) :
    List (String × Nat) :=
  (aFrames.map fun f => (a, f)) ++ (bFrames.map fun f => (b, f))

/-! ### Lemmas about the sorted-side operations -/

theorem lookupSide_nil (p : ℚ) : lookupSide [] p = none := rfl

theorem lookupSide_cons (p₁ q₁ : ℚ) (rest : Side) (p : ℚ) :
    lookupSide ((p₁, q₁) :: rest) p =
      if p = p₁ then some q₁ else lookupSide rest p := rfl

/-- In a sorted side, the head key is below every key of the tail. -/
theorem head_lt_of_sorted {p₁ q₁ : ℚ} {rest : Side}
    (h : SideSorted ((p₁, q₁) :: rest)) : ∀ x ∈ rest, p₁ < x.1 := by
  induction rest generalizing p₁ q₁ with
  | nil => intro x hx; cases hx
  | cons y ys ih =>
    intro x hx
    have h₁ : (p₁ : ℚ) < y.1 := (List.chain'_cons.1 h).1
    rcases List.mem_cons.1 hx with hx | hx
    · subst hx; exact h₁
    · exact h₁.trans (ih (List.chain'_cons.1 h).2 x hx)

/-- Sortedness survives dropping the head. -/
theorem SideSorted.tail_of_cons {x : ℚ × ℚ} {rest : Side}
    (h : SideSorted (x :: rest)) : SideSorted rest :=
  h.tail

/-- A key below every key of a sorted side is absent from it. -/
theorem lookupSide_eq_none_of_lt {d : Side} {p : ℚ}
    (h : ∀ x ∈ d, p < x.1) : lookupSide d p = none := by
  induction d with
  | nil => rfl
  | cons y ys ih =>
    rcases y with ⟨p₁, q₁⟩
    rw [lookupSide_cons]
    have hlt : p < p₁ := h (p₁, q₁) (List.mem_cons_self _ _)
    rw [if_neg (by exact fun he => absurd (he ▸ hlt) (lt_irrefl p))]
    exact ih fun x hx => h x (List.mem_cons_of_mem _ hx)

/-- Everything in the upserted side is the new pair or an old entry. -/
theorem mem_upsert {d : Side} {p q : ℚ} {x : ℚ × ℚ}
    (hx : x ∈ upsert d p q) : x = (p, q) ∨ x ∈ d := by
  induction d with
  | nil => simpa [upsert] using hx
  | cons y ys ih =>
    rcases y with ⟨p₁, q₁⟩
    by_cases h₁ : p < p₁
    · simp only [upsert, if_pos h₁] at hx
      rcases List.mem_cons.1 hx with hx | hx
      · exact Or.inl hx
      · exact Or.inr hx
    · by_cases h₂ : p = p₁
      · simp only [upsert, if_neg h₁, if_pos h₂] at hx
        rcases List.mem_cons.1 hx with hx | hx
        · exact Or.inl hx
        · exact Or.inr (List.mem_cons_of_mem _ hx)
      · simp only [upsert, if_neg h₁, if_neg h₂] at hx
        rcases List.mem_cons.1 hx with hx | hx
        · exact Or.inr (hx ▸ List.mem_cons_self _ _)
        · rcases ih hx with hx | hx
          · exact Or.inl hx
          · exact Or.inr (List.mem_cons_of_mem _ hx)

/-- Erasing only drops entries. -/
theorem mem_eraseKey {d : Side} {p : ℚ} {x : ℚ × ℚ}
    (hx : x ∈ eraseKey d p) : x ∈ d := by
  induction d with
  | nil => exact absurd hx (List.not_mem_nil x)
  | cons y ys ih =>
    rcases y with ⟨p₁, q₁⟩
    by_cases h₁ : p = p₁
    · simp only [eraseKey, if_pos h₁] at hx
      exact List.mem_cons_of_mem _ hx
    · simp only [eraseKey, if_neg h₁] at hx
      rcases List.mem_cons.1 hx with hx | hx
      · exact hx ▸ List.mem_cons_self _ _
      · exact List.mem_cons_of_mem _ (ih hx)

/-- Upsertion keeps the keys strictly ascending. -/
theorem sorted_upsert {d : Side} (h : SideSorted d) (p q : ℚ) :
    SideSorted (upsert d p q) := by
  induction d with
  | nil => exact List.chain'_singleton _
  | cons y ys ih =>
    rcases y with ⟨p₁, q₁⟩
    by_cases h₁ : p < p₁
    · simp only [upsert, if_pos h₁]
      exact List.chain'_cons.2 ⟨h₁, h⟩
    · by_cases h₂ : p = p₁
      · simp only [upsert, if_neg h₁, if_pos h₂]
        rcases List.chain'_cons'.1 h with ⟨hhd, htl⟩
        exact List.chain'_cons'.2 ⟨fun b hb => h₂ ▸ hhd b hb, htl⟩
      · simp only [upsert, if_neg h₁, if_neg h₂]
        refine List.chain'_cons'.2 ⟨?_, ih h.tail⟩
        intro b hb
        have hbmem : b ∈ upsert ys p q := List.mem_of_mem_head? hb
        rcases mem_upsert hbmem with hb' | hb'
        · subst hb'
          exact lt_of_le_of_ne (not_lt.1 h₁) fun he => h₂ he.symm
        · exact head_lt_of_sorted h b hb'

/-- Erasure keeps the keys strictly ascending. -/
theorem sorted_eraseKey {d : Side} (h : SideSorted d) (p : ℚ) :
    SideSorted (eraseKey d p) := by
  induction d with
  | nil => exact h
  | cons y ys ih =>
    rcases y with ⟨p₁, q₁⟩
    by_cases h₁ : p = p₁
    · simp only [eraseKey, if_pos h₁]
      exact h.tail
    · simp only [eraseKey, if_neg h₁]
      refine List.chain'_cons'.2 ⟨?_, ih h.tail⟩
      intro b hb
      exact head_lt_of_sorted h b (mem_eraseKey (List.mem_of_mem_head? hb))

/-- Looking up the upserted key finds the new quantity. -/
theorem lookupSide_upsert_self (d : Side) (p q : ℚ) :
    lookupSide (upsert d p q) p = some q := by
  induction d with
  | nil => simp [upsert, lookupSide]
  | cons y ys ih =>
    rcases y with ⟨p₁, q₁⟩
    by_cases h₁ : p < p₁
    · simp [upsert, if_pos h₁, lookupSide]
    · by_cases h₂ : p = p₁
      · simp [upsert, if_neg h₁, if_pos h₂, lookupSide]
      · simp [upsert, if_neg h₁, if_neg h₂, lookupSide, h₂, ih]

/-- Upserting one key leaves every other key's lookup unchanged. -/
theorem lookupSide_upsert_other {d : Side} {p p' : ℚ} (q : ℚ) (hne : p' ≠ p) :
    lookupSide (upsert d p q) p' = lookupSide d p' := by
  induction d with
  | nil => simp [upsert, lookupSide, hne]
  | cons y ys ih =>
    rcases y with ⟨p₁, q₁⟩
    by_cases h₁ : p < p₁
    · simp [upsert, if_pos h₁, lookupSide, hne]
    · by_cases h₂ : p = p₁
      · subst h₂
        simp [upsert, if_neg h₁, lookupSide, hne]
      · simp [upsert, if_neg h₁, if_neg h₂, lookupSide, ih]

/-- On a sorted side, erasing a key makes its lookup fail. -/
theorem lookupSide_eraseKey_self {d : Side} (h : SideSorted d) (p : ℚ) :
    lookupSide (eraseKey d p) p = none := by
  induction d with
  | nil => rfl
  | cons y ys ih =>
    rcases y with ⟨p₁, q₁⟩
    by_cases h₁ : p = p₁
    · simp only [eraseKey, if_pos h₁]
      exact lookupSide_eq_none_of_lt fun x hx => h₁ ▸ head_lt_of_sorted h x hx
    · simp only [eraseKey, if_neg h₁, lookupSide_cons, if_neg h₁]
      exact ih h.tail

/-- Erasing one key leaves every other key's lookup unchanged. -/
theorem lookupSide_eraseKey_other {d : Side} {p p' : ℚ} (hne : p' ≠ p) :
    lookupSide (eraseKey d p) p' = lookupSide d p' := by
  induction d with
  | nil => rfl
  | cons y ys ih =>
    rcases y with ⟨p₁, q₁⟩
    by_cases h₁ : p = p₁
    · subst h₁
      simp [eraseKey, lookupSide, hne]
    · simp [eraseKey, if_neg h₁, lookupSide, ih]

/-- Lemma: `applyOffer` acts on lookups exactly as `offerStep`. -/
theorem lookupSide_applyOffer {d : Side} (h : SideSorted d) (u : Offer) (p : ℚ) :
    lookupSide (applyOffer d u) p = offerStep p (lookupSide d p) u := by
  unfold applyOffer offerStep
  by_cases hq : u.quantity = 0
  · by_cases hp : u.price = p
    · subst hp
      simp [hq, lookupSide_eraseKey_self h]
    · simp [hq, hp, lookupSide_eraseKey_other fun he => hp he.symm]
  · by_cases hp : u.price = p
    · subst hp
      simp [hq, lookupSide_upsert_self]
    · simp [hq, hp, lookupSide_upsert_other _ fun he => hp he.symm]

/-- Lemma: `applyOffer` preserves sortedness. -/
theorem sorted_applyOffer {d : Side} (h : SideSorted d) (u : Offer) :
    SideSorted (applyOffer d u) := by
  unfold applyOffer
  by_cases hq : u.quantity = 0
  · simp only [if_pos hq]
    exact sorted_eraseKey h u.price
  · simp only [if_neg hq]
    exact sorted_upsert h u.price u.quantity

/-- Lemma: `_update_offers` preserves sortedness. -/
theorem sorted_update_offers {d : Side} (h : SideSorted d) (L : List Offer) :
    SideSorted (update_offers d L) := by
  induction L generalizing d with
  | nil => exact h
  | cons u L ih => exact ih (sorted_applyOffer h u)

/-- Lemma: `_update_offers` acts on lookups exactly as `netQty`. -/
theorem lookupSide_update_offers {d : Side} (h : SideSorted d) (L : List Offer) (p : ℚ) :
    lookupSide (update_offers d L) p = netQty p L (lookupSide d p) := by
  induction L generalizing d with
  | nil => rfl
  | cons u L ih =>
    show lookupSide (update_offers (applyOffer d u) L) p = _
    rw [ih (sorted_applyOffer h u), lookupSide_applyOffer h]
    rfl

/-- Two sorted sides with the same lookups are equal: sorted association
lists are a canonical representation, exactly as `SortedDict` states are. -/
theorem sorted_side_ext {d₁ d₂ : Side} (h₁ : SideSorted d₁) (h₂ : SideSorted d₂)
    (h : ∀ p, lookupSide d₁ p = lookupSide d₂ p) : d₁ = d₂ := by
  induction d₁ generalizing d₂ with
  | nil =>
    cases d₂ with
    | nil => rfl
    | cons y ys =>
      rcases y with ⟨p₂, q₂⟩
      have := h p₂
      simp [lookupSide] at this
  | cons x xs ih =>
    rcases x with ⟨p₁, q₁⟩
    cases d₂ with
    | nil =>
      have := h p₁
      simp [lookupSide] at this
    | cons y ys =>
      rcases y with ⟨p₂, q₂⟩
      have hkey : p₁ = p₂ := by
        by_contra hne
        rcases lt_or_gt_of_ne hne with hlt | hlt
        · have h₀ := h p₁
          rw [lookupSide_cons, lookupSide_cons, if_pos rfl, if_neg hne] at h₀
          have hn : lookupSide ys p₁ = none :=
            lookupSide_eq_none_of_lt fun x hx => hlt.trans (head_lt_of_sorted h₂ x hx)
          rw [hn] at h₀
          exact Option.noConfusion h₀
        · have h₀ := h p₂
          have hne₂ : ¬(p₂ = p₁) := fun he => absurd (he ▸ hlt) (lt_irrefl _)
          rw [lookupSide_cons, lookupSide_cons, if_neg hne₂, if_pos rfl] at h₀
          have hn : lookupSide xs p₂ = none :=
            lookupSide_eq_none_of_lt fun x hx => hlt.trans (head_lt_of_sorted h₁ x hx)
          rw [hn] at h₀
          exact Option.noConfusion h₀
      subst hkey
      have hval : q₁ = q₂ := by
        have h₀ := h p₁
        rw [lookupSide_cons, if_pos rfl, lookupSide_cons, if_pos rfl] at h₀
        exact Option.some.inj h₀
      subst hval
      have hrest : ∀ p, lookupSide xs p = lookupSide ys p := by
        intro p
        by_cases hp : p = p₁
        · subst hp
          rw [lookupSide_eq_none_of_lt (head_lt_of_sorted h₁),
            lookupSide_eq_none_of_lt (head_lt_of_sorted h₂)]
        · have h₀ := h p
          rwa [lookupSide_cons, if_neg hp, lookupSide_cons, if_neg hp] at h₀
      rw [ih (SideSorted.tail_of_cons h₁) (SideSorted.tail_of_cons h₂) hrest]

/-- One applied offer preserves the no-zero invariant. -/
theorem noZero_applyOffer {d : Side} (h : NoZeroSide d) (u : Offer) :
    NoZeroSide (applyOffer d u) := by
  unfold applyOffer
  by_cases hq : u.quantity = 0
  · simp only [if_pos hq]
    exact fun x hx => h x (mem_eraseKey hx)
  · simp only [if_neg hq]
    intro x hx
    rcases mem_upsert hx with hx | hx
    · subst hx; exact hq
    · exact h x hx

/-- Lemma: `_update_offers` preserves the no-zero invariant. -/
theorem noZero_update_offers {d : Side} (h : NoZeroSide d) (L : List Offer) :
    NoZeroSide (update_offers d L) := by
  induction L generalizing d with
  | nil => exact h
  | cons u L ih => exact ih (noZero_applyOffer h u)

/-- Every book reachable from the empty book is well-formed and zero-free. -/
theorem applyAll_invariants (b : OrderBook)
    (hb : b.WF ∧ NoZeroSide b.bids ∧ NoZeroSide b.asks)
    (upds : List (List Offer × List Offer)) :
    (b.applyAll upds).WF ∧ NoZeroSide (b.applyAll upds).bids ∧
      NoZeroSide (b.applyAll upds).asks := by
  induction upds generalizing b with
  | nil => exact hb
  | cons u upds ih =>
    refine ih (b.update u.1 u.2) ?_
    rcases hb with ⟨⟨hwb, hwa⟩, hzb, hza⟩
    exact ⟨⟨sorted_update_offers hwb u.1, sorted_update_offers hwa u.2⟩,
      noZero_update_offers hzb u.1, noZero_update_offers hza u.2⟩

/-- The empty book satisfies the invariants. -/
theorem empty_invariants :
    OrderBook.empty.WF ∧ NoZeroSide OrderBook.empty.bids ∧
      NoZeroSide OrderBook.empty.asks := by
  refine ⟨⟨List.chain'_nil, List.chain'_nil⟩, ?_, ?_⟩ <;>
    exact fun x hx => absurd hx (List.not_mem_nil x)

/-- A list with no offer at `p` leaves `p`'s net effect alone. -/
theorem netQty_of_no_hit {p : ℚ} {L : List Offer}
    (h : ∀ u ∈ L, u.price ≠ p) (o : Option ℚ) : netQty p L o = o := by
  induction L with
  | nil => rfl
  | cons u L ih =>
    show netQty p L (offerStep p o u) = o
    rw [offerStep, if_neg (h u (List.mem_cons_self _ _))]
    exact ih fun v hv => h v (List.mem_cons_of_mem _ hv)

/-- A list with an offer at `p` determines `p`'s net effect regardless of
the starting value: the last hit wins. -/
theorem netQty_of_hit {p : ℚ} {L : List Offer}
    (h : ∃ u ∈ L, u.price = p) (o o' : Option ℚ) : netQty p L o = netQty p L o' := by
  induction L generalizing o o' with
  | nil => rcases h with ⟨u, hu, _⟩; exact absurd hu (List.not_mem_nil u)
  | cons u L ih =>
    show netQty p L (offerStep p o u) = netQty p L (offerStep p o' u)
    by_cases hu : u.price = p
    · rw [offerStep, if_pos hu, offerStep, if_pos hu]
    · rcases h with ⟨v, hv, hvp⟩
      rcases List.mem_cons.1 hv with hv | hv
      · exact absurd (hv ▸ hvp) hu
      · exact ih ⟨v, hv, hvp⟩ _ _

/-- Applying the same net effect twice is the same as applying it once. -/
theorem netQty_idem (p : ℚ) (L : List Offer) (o : Option ℚ) :
    netQty p L (netQty p L o) = netQty p L o := by
  by_cases h : ∃ u ∈ L, u.price = p
  · exact netQty_of_hit h _ o
  · push_neg at h
    rw [netQty_of_no_hit h, netQty_of_no_hit h]

/-- Erasing a key that does not resolve is a no-op on the list itself. -/
theorem eraseKey_of_lookup_none {d : Side} {p : ℚ}
    (h : lookupSide d p = none) : eraseKey d p = d := by
  induction d with
  | nil => rfl
  | cons y ys ih =>
    rcases y with ⟨p₁, q₁⟩
    rw [lookupSide_cons] at h
    by_cases h₁ : p = p₁
    · rw [if_pos h₁] at h
      exact Option.noConfusion h
    · rw [if_neg h₁] at h
      simp only [eraseKey, if_neg h₁]
      rw [ih h]

/-- Lemma: `_update_offers` over a concatenation is sequential application. -/
theorem update_offers_append (d : Side) (L₁ L₂ : List Offer) :
    update_offers d (L₁ ++ L₂) = update_offers (update_offers d L₁) L₂ :=
  List.foldl_append _ _ _ _

/-- The bid side of a replayed history is one `_update_offers` run over the
flattened bid offers. -/
theorem applyAll_bids (b : OrderBook) (upds : List (List Offer × List Offer)) :
    (b.applyAll upds).bids = update_offers b.bids (flatBids upds) := by
  induction upds generalizing b with
  | nil => rfl
  | cons u upds ih =>
    show ((b.update u.1 u.2).applyAll upds).bids = _
    rw [ih (b.update u.1 u.2)]
    have hf : flatBids (u :: upds) = u.1 ++ flatBids upds := by
      simp [flatBids]
    rw [hf, update_offers_append]
    rfl

/-- The ask side of a replayed history is one `_update_offers` run over the
flattened ask offers. -/
theorem applyAll_asks (b : OrderBook) (upds : List (List Offer × List Offer)) :
    (b.applyAll upds).asks = update_offers b.asks (flatAsks upds) := by
  induction upds generalizing b with
  | nil => rfl
  | cons u upds ih =>
    show ((b.update u.1 u.2).applyAll upds).asks = _
    rw [ih (b.update u.1 u.2)]
    have hf : flatAsks (u :: upds) = u.2 ++ flatAsks upds := by
      simp [flatAsks]
    rw [hf, update_offers_append]
    rfl

/-- The net effect of an update list on a key is decided by the last offer
in the list naming that key, if any. -/
theorem netQty_eq_getLast (p : ℚ) (L : List Offer) (o : Option ℚ) :
    netQty p L o =
      ((L.filter fun u => u.price = p).getLast?).elim o
        (fun u => if u.quantity = 0 then none else some u.quantity) := by
  induction L using List.reverseRecOn generalizing o with
  | nil => rfl
  | append_singleton L u ih =>
    rw [netQty, List.foldl_append]
    show offerStep p (netQty p L o) u = _
    rw [List.filter_append]
    by_cases hu : u.price = p
    · rw [offerStep, if_pos hu]
      simp [hu]
    · rw [offerStep, if_neg hu]
      have hf : List.filter (fun v => decide (v.price = p)) [u] = [] := by
        simp [hu]
      rw [hf, List.append_nil]
      exact ih o

/-- Because `previous_last_update_id` starts as `some u0` and every retained
event replaces it with `some e.last_seq`, a run of the event loop can never
take the `none` branch: the first-event anchoring check of `engine.py`
lines 189-193 is dead code, and an anchoring fault is never raised. -/
theorem anchor_branch_unreachable (u0 : Nat) (p : Nat) (es : List DepthEvent)
    (a b c : Nat) :
    (runEvents u0 (some p) es).2 ≠ RunEnd.anchorFault a b c := by
  induction es generalizing p with
  | nil => exact fun h => RunEnd.noConfusion h
  | cons e es ih =>
    show (match processEvent u0 (some p) e with
      | StepResult.discard => runEvents u0 (some p) es
      | StepResult.emit upd newPrev =>
        ((runEvents u0 (some newPrev) es).1.cons upd, (runEvents u0 (some newPrev) es).2)
      | StepResult.gapFault x y => ([], RunEnd.gapFault x y)
      | StepResult.anchorFault x y z => ([], RunEnd.anchorFault x y z)).2 ≠ _
    unfold processEvent
    by_cases h₁ : e.last_seq ≤ u0
    · rw [if_pos h₁]
      exact ih p
    · rw [if_neg h₁]
      by_cases h₂ : e.first_seq ≠ p + 1
      · simp only [if_pos h₂]
        exact fun h => RunEnd.noConfusion h
      · simp only [if_neg h₂]
        exact ih e.last_seq

/-- C1 (code_bug): the spec requires the first retained event `e` (with
`e.last_seq > U0`) to be kept exactly when
`e.first_seq <= U0 + 1 <= e.last_seq`. The code instead initializes
`previous_last_update_id` to `U0` (`engine.py` line 173), so the first
retained event is forced through the gap check `first_seq == U0 + 1` and the
anchoring branch of lines 189-193 never runs. At the spec's own example
(`U0 = 100`, `first_seq = 95`, `last_seq = 103`) the anchoring condition
holds, yet the code raises a `StreamIntegrityError` (gap fault expecting
101) and emits nothing for the event; the dead `none` branch would have
retained it. -/
theorem first_event_anchoring_code_bug :
    (95 ≤ 100 + 1 ∧ 100 + 1 ≤ 103) ∧
    processEvent 100 (some 100) ⟨95, 103, [("1", "2")], []⟩ =
      StepResult.gapFault 101 95 ∧
    process_order_book_updates ⟨100, [], []⟩ [⟨95, 103, [("1", "2")], []⟩] =
      ([mkSnapshotUpdate ⟨100, [], []⟩], RunEnd.gapFault 101 95) ∧
    processEvent 100 none ⟨95, 103, [("1", "2")], []⟩ =
      StepResult.emit (mkDepthUpdate ⟨95, 103, [("1", "2")], []⟩) 103 :=
  ⟨by decide, by decide, by decide, by decide⟩

/-- C4 (confirmed): once some event has been retained (so
`previous_last_update_id = some P`, `P` the last retained event's
`last_seq`), an event `e` with `e.last_seq > U0` is retained — emitted as
exactly one `OrderBookUpdate` built from its diffs, with the state advancing
to `some e.last_seq` — precisely when `e.first_seq = P + 1`; any other
`first_seq` (gap or overlap) raises a `StreamIntegrityError` and ends the
run with no further output. -/
theorem gap_check_after_retained (u0 P : Nat) (e : DepthEvent)
    (es : List DepthEvent) (h : u0 < e.last_seq) :
    (e.first_seq = P + 1 →
      runEvents u0 (some P) (e :: es) =
        ((runEvents u0 (some e.last_seq) es).1.cons (mkDepthUpdate e),
          (runEvents u0 (some e.last_seq) es).2)) ∧
    (e.first_seq ≠ P + 1 →
      runEvents u0 (some P) (e :: es) = ([], RunEnd.gapFault (P + 1) e.first_seq)) := by
  constructor
  · intro heq
    have hp : processEvent u0 (some P) e = StepResult.emit (mkDepthUpdate e) e.last_seq := by
      unfold processEvent
      rw [if_neg (not_le.2 h)]
      simp [heq]
    simp [runEvents, hp]
  · intro hne
    have hp : processEvent u0 (some P) e = StepResult.gapFault (P + 1) e.first_seq := by
      unfold processEvent
      rw [if_neg (not_le.2 h)]
      simp [hne]
    simp [runEvents, hp]

/-- Witness for C4 at the spec's example: previous retained `last_seq = 150`
and an event with `first_seq = 152` (gap of one) faults; the contiguous
event with `first_seq = 151` is emitted as one update. -/
theorem gap_check_after_retained_witness :
    (100 < 160) ∧
    runEvents 100 (some 150) [⟨152, 160, [], []⟩] =
      ([], RunEnd.gapFault 151 152) ∧
    runEvents 100 (some 150) [⟨151, 160, [], []⟩] =
      ([mkDepthUpdate ⟨151, 160, [], []⟩], RunEnd.ok (some 160)) :=
  ⟨by decide,
    (gap_check_after_retained 100 150 ⟨152, 160, [], []⟩ [] (by decide)).2 (by decide),
    (gap_check_after_retained 100 150 ⟨151, 160, [], []⟩ [] (by decide)).1 (by decide)⟩

/-- C5 (confirmed): an event with `e.last_seq ≤ U0` predates the snapshot;
the loop body discards it — no update emitted, no fault raised — and the run
continues with the remaining events exactly as if `e` had not arrived. -/
theorem outdated_event_discarded (u0 : Nat) (prev : Option Nat) (e : DepthEvent)
    (es : List DepthEvent) (h : e.last_seq ≤ u0) :
    processEvent u0 prev e = StepResult.discard ∧
    runEvents u0 prev (e :: es) = runEvents u0 prev es := by
  have hp : processEvent u0 prev e = StepResult.discard := by
    unfold processEvent
    rw [if_pos h]
  exact ⟨hp, by simp [runEvents, hp]⟩

/-- Witness for C5 at the spec's example: `U0 = 100`, an event with
`last_seq = 95` is discarded. -/
theorem outdated_event_discarded_witness :
    (95 ≤ 100) ∧
    (processEvent 100 (some 100) ⟨90, 95, [("3", "4")], []⟩ = StepResult.discard ∧
      runEvents 100 (some 100) [⟨90, 95, [("3", "4")], []⟩] =
        runEvents 100 (some 100) []) :=
  ⟨by decide,
    outdated_event_discarded 100 (some 100) ⟨90, 95, [("3", "4")], []⟩ [] (by decide)⟩

/-- C2 counterexample: at a concrete attempt that ends in a stream
integrity fault after one delivered update, `handle_websocket_connection`
sends the update, closes the connection, and terminates — its caller-visible
action trace is the finite list `[sendText, close]`, containing no restart
of the subscription and no backoff wait. The claimed "full restart after a
fixed backoff; never terminates on its own" is false of the code. -/
theorem fault_restart_counterexample :
    handle_websocket_connection
        ⟨[mkSnapshotUpdate ⟨100, [("1", "2")], []⟩], FaultKind.streamIntegrity⟩ =
      [ClientAction.sendText [("1", "2")] [], ClientAction.close] ∧
    ClientAction.restartAttempt ∉
      handle_websocket_connection
        ⟨[mkSnapshotUpdate ⟨100, [("1", "2")], []⟩], FaultKind.streamIntegrity⟩ ∧
    ClientAction.backoffWait ∉
      handle_websocket_connection
        ⟨[mkSnapshotUpdate ⟨100, [("1", "2")], []⟩], FaultKind.streamIntegrity⟩ :=
  ⟨by decide, by decide, by decide⟩

/-- C2 amended: a stream integrity fault, transport error, or timeout
terminates not just the current attempt but the whole caller-visible
sequence: for every faulted attempt, `handle_websocket_connection` sends the
delivered updates, then closes the websocket and returns — a finite trace
ending in `close`, with no backoff wait and no restart. -/
theorem fault_terminates_sequence (run : SyncAttempt) :
    handle_websocket_connection run =
      (run.updates.map fun u => ClientAction.sendText u.bids u.asks) ++
        [ClientAction.close] ∧
    (handle_websocket_connection run).getLast? = some ClientAction.close ∧
    ClientAction.restartAttempt ∉ handle_websocket_connection run ∧
    ClientAction.backoffWait ∉ handle_websocket_connection run := by
  refine ⟨rfl, ?_, ?_, ?_⟩
  · rw [handle_websocket_connection]
    exact List.getLast?_concat _
  · rw [handle_websocket_connection]
    intro hmem
    rcases List.mem_append.1 hmem with hmem | hmem
    · rcases List.mem_map.1 hmem with ⟨u, _, hu⟩
      exact ClientAction.noConfusion hu
    · rcases List.mem_singleton.1 hmem with h
      exact ClientAction.noConfusion h
  · rw [handle_websocket_connection]
    intro hmem
    rcases List.mem_append.1 hmem with hmem | hmem
    · rcases List.mem_map.1 hmem with ⟨u, _, hu⟩
      exact ClientAction.noConfusion hu
    · rcases List.mem_singleton.1 hmem with h
      exact ClientAction.noConfusion h

/-- C3 (spec-modelled, confirmed): under §4.3's `set_task` discipline —
cancel and await the old task before installing the new one — the delivery
trace of a client switching from symbol `a` to symbol `b` is all retained
`a`-frames followed by all `b`-frames: the `a`-frames are exactly the
trace's prefix, and once any `b`-frame has been delivered no later position
holds an `a`-frame (equivalently: nothing tagged `b` precedes anything
tagged `a`), so the two subscription tasks never interleave. -/
theorem set_task_switch_no_stale_frames (a b : String) (hne : a ≠ b)
    (aFrames bFrames : List Nat) :
    (set_task_switch_trace a b aFrames bFrames).take aFrames.length =
      aFrames.map (fun f => (a, f)) ∧
    (∀ i j : Nat, i < j →
      ((set_task_switch_trace a b aFrames bFrames)[j]?).map Prod.fst = some a →
      ((set_task_switch_trace a b aFrames bFrames)[i]?).map Prod.fst ≠ some b) := by
  constructor
  · rw [set_task_switch_trace]
    have hl : (aFrames.map fun f => (a, f)).length = aFrames.length :=
      List.length_map _ _
    rw [← hl, List.take_left]
  · intro i j hij hj
    have hjlt : j < aFrames.length := by
      by_contra hge
      push_neg at hge
      have hge₁ : (aFrames.map fun f => (a, f)).length ≤ j := by
        rwa [List.length_map]
      rw [set_task_switch_trace, List.getElem?_append_right hge₁,
        List.getElem?_map] at hj
      rcases hb : bFrames[j - (aFrames.map fun f => (a, f)).length]? with _ | v
      · rw [hb] at hj
        exact Option.noConfusion hj
      · rw [hb] at hj
        simp only [Option.map_some'] at hj
        exact hne (Option.some.inj hj).symm
    have hilt : i < (aFrames.map fun f => (a, f)).length := by
      rw [List.length_map]
      exact hij.trans hjlt
    rw [set_task_switch_trace, List.getElem?_append_left hilt, List.getElem?_map]
    rcases ha : aFrames[i]? with _ | v
    · exact fun h => Option.noConfusion h
    · simp only [Option.map_some']
      exact fun h => hne (Option.some.inj h)

/-- Witness for C3: a client switching from BTCUSDC to ETHUSDC with one
frame delivered by each task. -/
theorem set_task_switch_no_stale_frames_witness :
    ("BTCUSDC" ≠ "ETHUSDC") ∧
    ((set_task_switch_trace "BTCUSDC" "ETHUSDC" [7] [9]).take 1 =
        [("BTCUSDC", 7)] ∧
      (∀ i j : Nat, i < j →
        ((set_task_switch_trace "BTCUSDC" "ETHUSDC" [7] [9])[j]?).map Prod.fst =
          some "BTCUSDC" →
        ((set_task_switch_trace "BTCUSDC" "ETHUSDC" [7] [9])[i]?).map Prod.fst ≠
          some "ETHUSDC")) :=
  ⟨by decide, set_task_switch_no_stale_frames "BTCUSDC" "ETHUSDC" (by decide) [7] [9]⟩

/-- C8 counterexample: at the spec's own example input `"btc usdc!!"`
(sanitized to `"BTC USDC"`, not in the supported set), the handler that
`main.py` actually wires to `/ws/{client_id}` — `order_book_stream` in
`websocket.py` — sends `{'error': 'pair btc usdc!! not found!'}` with a
lower-case `pair`, not the claimed `"Pair <original input> not found!"`. -/
theorem unsupported_symbol_error_counterexample :
    sanitizeSymbol "btc usdc!!" = "BTC USDC" ∧
    order_book_stream_ws ["BTCUSDC"] "btc usdc!!" =
      [HandlerAction.sendJsonError "pair btc usdc!! not found!"] ∧
    order_book_stream_ws ["BTCUSDC"] "btc usdc!!" ≠
      [HandlerAction.sendJsonError "Pair btc usdc!! not found!"] :=
  ⟨by decide, by decide, by decide⟩

/-- C8 amended: an inbound frame whose sanitized, upper-cased form is not in
the supported set yields exactly one error frame naming the original
(unsanitized) input, and starts no subscription task; the wired handler
(`websocket.py`) spells the message `pair <original> not found!` with a
lower-case `pair`, while the `connection.py` draft spells it
`Pair <original> not found!`. -/
theorem unsupported_symbol_error_frame (pairs : List String) (data : String)
    (h : sanitizeSymbol data ∉ pairs) :
    order_book_stream_ws pairs data =
      [HandlerAction.sendJsonError ("pair " ++ data ++ " not found!")] ∧
    order_book_stream_conn pairs data =
      [HandlerAction.sendJsonError ("Pair " ++ data ++ " not found!")] ∧
    (∀ s, HandlerAction.startSubscription s ∉ order_book_stream_ws pairs data) ∧
    (∀ s, HandlerAction.startSubscription s ∉ order_book_stream_conn pairs data) := by
  refine ⟨?_, ?_, ?_, ?_⟩
  · rw [order_book_stream_ws, if_neg h]
  · rw [order_book_stream_conn, if_neg h]
  · intro s
    rw [order_book_stream_ws, if_neg h]
    intro hmem
    exact HandlerAction.noConfusion (List.mem_singleton.1 hmem)
  · intro s
    rw [order_book_stream_conn, if_neg h]
    intro hmem
    exact HandlerAction.noConfusion (List.mem_singleton.1 hmem)

/-- Witness for C8 (amended) at the spec's example input. -/
theorem unsupported_symbol_error_frame_witness :
    (sanitizeSymbol "btc usdc!!" ∉ ["BTCUSDC"]) ∧
    (order_book_stream_ws ["BTCUSDC"] "btc usdc!!" =
        [HandlerAction.sendJsonError ("pair " ++ "btc usdc!!" ++ " not found!")] ∧
      order_book_stream_conn ["BTCUSDC"] "btc usdc!!" =
        [HandlerAction.sendJsonError ("Pair " ++ "btc usdc!!" ++ " not found!")] ∧
      (∀ s, HandlerAction.startSubscription s ∉
        order_book_stream_ws ["BTCUSDC"] "btc usdc!!") ∧
      (∀ s, HandlerAction.startSubscription s ∉
        order_book_stream_conn ["BTCUSDC"] "btc usdc!!")) :=
  ⟨by decide, unsupported_symbol_error_frame ["BTCUSDC"] "btc usdc!!" (by decide)⟩

/-- An entry present in a side makes its key's lookup succeed. -/
theorem lookupSide_ne_none_of_mem {d : Side} {p q : ℚ}
    (h : (p, q) ∈ d) : lookupSide d p ≠ none := by
  induction d with
  | nil => exact absurd h (List.not_mem_nil _)
  | cons y ys ih =>
    rcases y with ⟨p₁, q₁⟩
    rw [lookupSide_cons]
    by_cases h₁ : p = p₁
    · rw [if_pos h₁]
      exact fun he => Option.noConfusion he
    · rw [if_neg h₁]
      rcases List.mem_cons.1 h with h | h
      · exact absurd (congrArg Prod.fst h) h₁
      · exact ih h

/-- C6 (confirmed): in every book built from the empty book by a sequence
of `update` calls, no entry on either side has quantity 0; applying an offer
with quantity 0 removes its price key (the key's lookup fails afterwards),
and when the price is absent it is a no-op that raises nothing and leaves
the book unchanged. -/
theorem orderbook_no_zero_quantity (upds : List (List Offer × List Offer)) (p : ℚ) :
    (∀ x ∈ (OrderBook.empty.applyAll upds).bids, x.2 ≠ 0) ∧
    (∀ x ∈ (OrderBook.empty.applyAll upds).asks, x.2 ≠ 0) ∧
    (lookupSide (OrderBook.empty.applyAll upds).bids p = none →
      (OrderBook.empty.applyAll upds).update [⟨p, 0⟩] [] =
        OrderBook.empty.applyAll upds) ∧
    (lookupSide (OrderBook.empty.applyAll upds).asks p = none →
      (OrderBook.empty.applyAll upds).update [] [⟨p, 0⟩] =
        OrderBook.empty.applyAll upds) ∧
    lookupSide ((OrderBook.empty.applyAll upds).update [⟨p, 0⟩] []).bids p = none ∧
    lookupSide ((OrderBook.empty.applyAll upds).update [] [⟨p, 0⟩]).asks p = none := by
  obtain ⟨⟨hwb, hwa⟩, hzb, hza⟩ :=
    applyAll_invariants OrderBook.empty empty_invariants upds
  have hbz : update_offers (OrderBook.empty.applyAll upds).bids [Offer.mk p 0] =
      eraseKey (OrderBook.empty.applyAll upds).bids p := by
    simp [update_offers, applyOffer]
  have haz : update_offers (OrderBook.empty.applyAll upds).asks [Offer.mk p 0] =
      eraseKey (OrderBook.empty.applyAll upds).asks p := by
    simp [update_offers, applyOffer]
  refine ⟨hzb, hza, ?_, ?_, ?_, ?_⟩
  · intro h
    show OrderBook.mk _ _ = _
    rw [hbz, eraseKey_of_lookup_none h]
    rfl
  · intro h
    show OrderBook.mk _ _ = _
    rw [haz, eraseKey_of_lookup_none h]
    rfl
  · show lookupSide (update_offers _ _) p = none
    rw [hbz]
    exact lookupSide_eraseKey_self hwb p
  · show lookupSide (update_offers _ _) p = none
    rw [haz]
    exact lookupSide_eraseKey_self hwa p

/-- Witness for C6 at a concrete history: building a book, removing a
present level, and removing an absent one. -/
theorem orderbook_no_zero_quantity_witness :
    (∀ x ∈ (OrderBook.empty.applyAll
        [([Offer.mk 1 2], [Offer.mk 3 4]), ([Offer.mk 1 0], [])]).bids, x.2 ≠ 0) ∧
    (∀ x ∈ (OrderBook.empty.applyAll
        [([Offer.mk 1 2], [Offer.mk 3 4]), ([Offer.mk 1 0], [])]).asks, x.2 ≠ 0) ∧
    (lookupSide (OrderBook.empty.applyAll
        [([Offer.mk 1 2], [Offer.mk 3 4]), ([Offer.mk 1 0], [])]).bids 5 = none →
      (OrderBook.empty.applyAll
          [([Offer.mk 1 2], [Offer.mk 3 4]), ([Offer.mk 1 0], [])]).update
          [⟨5, 0⟩] [] =
        OrderBook.empty.applyAll
          [([Offer.mk 1 2], [Offer.mk 3 4]), ([Offer.mk 1 0], [])]) ∧
    (lookupSide (OrderBook.empty.applyAll
        [([Offer.mk 1 2], [Offer.mk 3 4]), ([Offer.mk 1 0], [])]).asks 5 = none →
      (OrderBook.empty.applyAll
          [([Offer.mk 1 2], [Offer.mk 3 4]), ([Offer.mk 1 0], [])]).update
          [] [⟨5, 0⟩] =
        OrderBook.empty.applyAll
          [([Offer.mk 1 2], [Offer.mk 3 4]), ([Offer.mk 1 0], [])]) ∧
    lookupSide ((OrderBook.empty.applyAll
        [([Offer.mk 1 2], [Offer.mk 3 4]), ([Offer.mk 1 0], [])]).update
        [⟨5, 0⟩] []).bids 5 = none ∧
    lookupSide ((OrderBook.empty.applyAll
        [([Offer.mk 1 2], [Offer.mk 3 4]), ([Offer.mk 1 0], [])]).update
        [] [⟨5, 0⟩]).asks 5 = none :=
  orderbook_no_zero_quantity [([Offer.mk 1 2], [Offer.mk 3 4]), ([Offer.mk 1 0], [])] 5

/-- C7 (confirmed): in every book built from the empty book, `top_bids` and
`top_asks` return at most 20 quantities; they are the quantities of the 20
best price levels (highest-price-first for bids, lowest-price-first for
asks, the underlying levels strictly ordered); every returned quantity
belongs to a price level present in the current book; and a price level
whose last applied update in the whole history had quantity 0 is absent
from the book, so nothing of it is returned. -/
theorem orderbook_top_views (upds : List (List Offer × List Offer)) :
    (OrderBook.empty.applyAll upds).top_bids.length ≤ 20 ∧
    (OrderBook.empty.applyAll upds).top_asks.length ≤ 20 ∧
    (OrderBook.empty.applyAll upds).top_bids =
      (((OrderBook.empty.applyAll upds).bids.reverse).take 20).map Prod.snd ∧
    (OrderBook.empty.applyAll upds).top_asks =
      (((OrderBook.empty.applyAll upds).asks).take 20).map Prod.snd ∧
    List.Chain' (fun x y : ℚ × ℚ => y.1 < x.1)
      (((OrderBook.empty.applyAll upds).bids.reverse).take 20) ∧
    List.Chain' (fun x y : ℚ × ℚ => x.1 < y.1)
      (((OrderBook.empty.applyAll upds).asks).take 20) ∧
    (∀ q ∈ (OrderBook.empty.applyAll upds).top_bids,
      ∃ pr, (pr, q) ∈ (OrderBook.empty.applyAll upds).bids) ∧
    (∀ q ∈ (OrderBook.empty.applyAll upds).top_asks,
      ∃ pr, (pr, q) ∈ (OrderBook.empty.applyAll upds).asks) ∧
    (∀ p u, ((flatBids upds).filter fun v => v.price = p).getLast? = some u →
      u.quantity = 0 →
      lookupSide (OrderBook.empty.applyAll upds).bids p = none ∧
      ∀ q, (p, q) ∉ (OrderBook.empty.applyAll upds).bids) ∧
    (∀ p u, ((flatAsks upds).filter fun v => v.price = p).getLast? = some u →
      u.quantity = 0 →
      lookupSide (OrderBook.empty.applyAll upds).asks p = none ∧
      ∀ q, (p, q) ∉ (OrderBook.empty.applyAll upds).asks) := by
  obtain ⟨⟨hwb, hwa⟩, hzb, hza⟩ :=
    applyAll_invariants OrderBook.empty empty_invariants upds
  refine ⟨List.length_take_le _ _, List.length_take_le _ _, ?_, ?_, ?_, ?_,
    ?_, ?_, ?_, ?_⟩
  · rw [OrderBook.top_bids, ← List.map_reverse, ← List.map_take]
  · rw [OrderBook.top_asks, ← List.map_take]
  · exact (List.chain'_reverse.2 hwb).take 20
  · exact hwa.take 20
  · intro q hq
    rw [OrderBook.top_bids] at hq
    have hq₁ : q ∈ (OrderBook.empty.applyAll upds).bids.map Prod.snd :=
      List.mem_reverse.1 (List.take_subset _ _ hq)
    rcases List.mem_map.1 hq₁ with ⟨x, hx, hxq⟩
    exact ⟨x.1, by rw [← hxq]; exact hx⟩
  · intro q hq
    rw [OrderBook.top_asks] at hq
    have hq₁ : q ∈ (OrderBook.empty.applyAll upds).asks.map Prod.snd :=
      List.take_subset _ _ hq
    rcases List.mem_map.1 hq₁ with ⟨x, hx, hxq⟩
    exact ⟨x.1, by rw [← hxq]; exact hx⟩
  · intro p u hlast hq
    have hnone : lookupSide (OrderBook.empty.applyAll upds).bids p = none := by
      rw [applyAll_bids]
      show lookupSide (update_offers [] (flatBids upds)) p = none
      rw [lookupSide_update_offers List.chain'_nil, netQty_eq_getLast, hlast]
      simp [hq]
    exact ⟨hnone, fun q hmem => lookupSide_ne_none_of_mem hmem hnone⟩
  · intro p u hlast hq
    have hnone : lookupSide (OrderBook.empty.applyAll upds).asks p = none := by
      rw [applyAll_asks]
      show lookupSide (update_offers [] (flatAsks upds)) p = none
      rw [lookupSide_update_offers List.chain'_nil, netQty_eq_getLast, hlast]
      simp [hq]
    exact ⟨hnone, fun q hmem => lookupSide_ne_none_of_mem hmem hnone⟩

/-- C9 (confirmed): for every well-formed book state (any pair of
`SortedDict` sides) and every pair of offer lists, applying
`update(bids, asks)` twice leaves exactly the state one application leaves:
`update` is idempotent. -/
theorem orderbook_update_idempotent (b : OrderBook) (hb : b.WF)
    (bids asks : List Offer) :
    (b.update bids asks).update bids asks = b.update bids asks := by
  rcases hb with ⟨hwb, hwa⟩
  have hside : ∀ (d : Side), SideSorted d → ∀ L,
      update_offers (update_offers d L) L = update_offers d L := by
    intro d hd L
    refine sorted_side_ext (sorted_update_offers (sorted_update_offers hd L) L)
      (sorted_update_offers hd L) ?_
    intro p
    rw [lookupSide_update_offers (sorted_update_offers hd L),
      lookupSide_update_offers hd, netQty_idem]
  simp only [OrderBook.update]
  rw [hside b.bids hwb bids, hside b.asks hwa asks]

/-- Witness for C9 at a concrete book and update lists (with a removal, an
insertion, and a replacement among the updates). -/
theorem orderbook_update_idempotent_witness :
    OrderBook.WF ⟨[(1, 2)], [(3, 4)]⟩ ∧
    ((OrderBook.mk [(1, 2)] [(3, 4)]).update [Offer.mk 1 0, Offer.mk 2 5]
        [Offer.mk 3 7]).update [Offer.mk 1 0, Offer.mk 2 5] [Offer.mk 3 7] =
      (OrderBook.mk [(1, 2)] [(3, 4)]).update [Offer.mk 1 0, Offer.mk 2 5]
        [Offer.mk 3 7] :=
  ⟨⟨List.chain'_singleton _, List.chain'_singleton _⟩,
    orderbook_update_idempotent ⟨[(1, 2)], [(3, 4)]⟩
      ⟨List.chain'_singleton _, List.chain'_singleton _⟩
      [Offer.mk 1 0, Offer.mk 2 5] [Offer.mk 3 7]⟩

/-- C10 (confirmed): `update` writes each side from that side's prior state
and that side's argument alone — the resulting ask side is
`_update_offers` of the prior asks with the asks argument (so it does not
depend on the bids argument or the bid side), and symmetrically for bids. -/
theorem orderbook_update_frame_effect (b₁ b₂ : OrderBook)
    (bids₁ bids₂ asks₁ asks₂ : List Offer) :
    (b₁.update bids₁ asks₁).asks = update_offers b₁.asks asks₁ ∧
    (b₁.update bids₁ asks₁).bids = update_offers b₁.bids bids₁ ∧
    (b₁.asks = b₂.asks →
      (b₁.update bids₁ asks₁).asks = (b₂.update bids₂ asks₁).asks) ∧
    (b₁.bids = b₂.bids →
      (b₁.update bids₁ asks₁).bids = (b₂.update bids₁ asks₂).bids) := by
  refine ⟨rfl, rfl, ?_, ?_⟩
  · intro h
    show update_offers b₁.asks asks₁ = update_offers b₂.asks asks₁
    rw [h]
  · intro h
    show update_offers b₁.bids bids₁ = update_offers b₂.bids bids₁
    rw [h]
